import Mathlib

set_option autoImplicit false

/-!
Shallow embedding of `src/LearningSystems/DEAPLearningSystem.py`
(class `DEAPLearningSystem` and class `Algorithms`).

Numeric values are modelled by `ℚ`; a Python expression that may raise is
modelled by `Except String`.  Where the repository delegates behaviour to the
external DEAP library (an external collaborator, not part of this repository),
the corresponding definition carries a doc comment starting
`Modelled from the spec:` and follows the spec's description of that
collaborator.
-/

/-- Expression trees (the `Individual` representation: a rooted tree of
primitive/terminal nodes, cf. `gp.PrimitiveTree`).  A terminal is either an
input variable (one column of the feature matrix) or a constant. -/
inductive GPTree where
| var : Nat → GPTree
| const : ℚ → GPTree
| node : String → List GPTree → GPTree

mutual

/-- DEAP `PrimitiveTree.height` as used by `operator.attrgetter("height")`:
0 for a terminal, `1 + max(child heights)` for a function node. -/
def GPTree.height : GPTree → Nat
| .var _ => 0
| .const _ => 0
| .node _ cs => 1 + GPTree.heightList cs

def GPTree.heightList : List GPTree → Nat
| [] => 0
| t :: ts => max t.height (GPTree.heightList ts)

end

/-- A compiled tree: the callable produced by `gp.compile(ind, pset)`,
taking one row of the feature matrix (`func(*row)`). -/
def PredFn : Type := List ℚ → Except String ℚ

/-- A primitive set: interprets a primitive name on evaluated arguments
(the external primitive registry bound into `self.pset`). -/
def Interp : Type := String → List ℚ → Except String ℚ

mutual

/-- Semantics of `gp.compile(ind, self.pset)`: recursively evaluate the tree
on a row; a variable reads `row[i]`, a function node applies the primitive
to its evaluated children.  Any failure is an `Except.error`. -/
def evalTree (interp : Interp) : GPTree → List ℚ → Except String ℚ
| .var i, row =>
    match row.get? i with
    | some v => .ok v
    | none => .error "IndexError"
| .const c, _ => .ok c
| .node name cs, row =>
    match evalArgs interp cs row with
    | .ok args => interp name args
    | .error e => .error e

def evalArgs (interp : Interp) : List GPTree → List ℚ → Except String (List ℚ)
| [], _ => .ok []
| t :: ts, row =>
    match evalTree interp t row with
    | .ok v =>
        match evalArgs interp ts row with
        | .ok vs => .ok (v :: vs)
        | .error e => .error e
    | .error e => .error e

end

/-- A pandas `DataFrame`: an ordered sequence of named columns of values. -/
structure DataFrame where
  cols : List (String × List ℚ)
deriving DecidableEq

/-- The column labels of a `DataFrame`. -/
def DataFrame.names (df : DataFrame) : List String := df.cols.map Prod.fst

/-- The rows of a `DataFrame` (what `X.apply(..., axis=1)` iterates over). -/
def DataFrame.rowsOf (df : DataFrame) : List (List ℚ) :=
  (df.cols.map Prod.snd).transpose

/-- `X[name]`: read a column (first column with that label; `[]` if absent). -/
def DataFrame.getCol (df : DataFrame) (name : String) : List ℚ :=
  match df.cols.find? (fun c => decide (c.1 = name)) with
  | some c => c.2
  | none => []

/-- `X[name] = vals`: overwrite the column in place when the label exists,
otherwise append a new column, as pandas column assignment does. -/
def DataFrame.setCol (df : DataFrame) (name : String) (vals : List ℚ) : DataFrame :=
  if df.cols.any (fun c => decide (c.1 = name)) then
    ⟨df.cols.map (fun c => if c.1 = name then (c.1, vals) else c)⟩
  else
    ⟨df.cols ++ [(name, vals)]⟩

/-- `X.drop(name, axis=1, inplace=True)`: remove the labelled column. -/
def DataFrame.dropCol (df : DataFrame) (name : String) : DataFrame :=
  ⟨df.cols.filter (fun c => decide (¬ c.1 = name))⟩

/-- The row loop of `DEAPLearningSystem.get_result` (the inner `temp`):
apply `func` to each row; a row whose evaluation raises yields the
sentinel value `9999` instead of propagating the failure. -/
def get_resultVals (func : PredFn) (rows : List (List ℚ)) : List ℚ :=
  rows.map (fun row =>
    match func row with
    | .ok v => v
    | .error _ => 9999)

/-- `DEAPLearningSystem.get_result(func, X, y)`: computes the per-row values
over a copy of `X`, stores them in column `result` of `X`, copies that column
out as the return value, then drops column `result` from `X` in place.
Returns (returned series, state of `X` after the call). -/
def get_result (func : PredFn) (X : DataFrame) : List ℚ × DataFrame :=
  let vals := get_resultVals func X.rowsOf
  let X1 := X.setCol "result" vals
  let ret := X1.getCol "result"
  let X2 := X1.dropCol "result"
  (ret, X2)

/-- `np.mean` of a list of values (sum divided by length). -/
def npMean (l : List ℚ) : ℚ := l.sum / l.length

/-- `DEAPLearningSystem._mse(func, X, y)`: mean of the squared differences
between `get_result`'s predictions and `y`.  Also returns the state of `X`
after the embedded `get_result` call. -/
def mseDF (func : PredFn) (X : DataFrame) (y : List ℚ) : ℚ × DataFrame :=
  let r := get_result func X
  (npMean ((List.zipWith (fun a b => a - b) r.1 y).map (fun d => d * d)), r.2)

/-- The auxiliary-penalty callable (`self.add_func`); its first argument is
the view of the learning-system object that the spec exposes to it: the
currently compiled predictor function (`dls.func`). -/
def AddFunc : Type := Option PredFn → DataFrame → List ℚ → ℚ

/-- The default auxiliary penalty set in `__init__`:
`lambda dls, x, y : 0` (the zero-function default). -/
def defaultAddFunc : AddFunc := fun _ _ _ => 0

/-- The attributes of a built learning system that fitness evaluation touches:
`self.pset`, `self.add_func` and the scratch attribute `self.func` that
`eval_helper`/`ind_score` assign the currently compiled function to. -/
structure EvalState where
  pset : Interp
  add_func : AddFunc
  func : Option PredFn

/-- `DEAPLearningSystem.eval_helper(ind, X, y)`:
compile the individual into `self.func`, compute the mse via `_mse`, add the
auxiliary penalty `self.add_func(self, X, y)`, and return the one-element
tuple `(mse + a,)`.  Result: (returned tuple, state of `self`, state of `X`). -/
def eval_helper (s : EvalState) (ind : GPTree) (X : DataFrame) (y : List ℚ) :
    List ℚ × EvalState × DataFrame :=
  let f := evalTree s.pset ind
  let s1 : EvalState := { s with func := some f }
  let r := mseDF f X y
  let a := s1.add_func s1.func r.2 y
  ([r.1 + a], s1, r.2)

/-- `DEAPLearningSystem.ind_score(ind, X, y)`: same pipeline as `eval_helper`
but returns the decomposed pair `(mse, violation)`. -/
def ind_score (s : EvalState) (ind : GPTree) (X : DataFrame) (y : List ℚ) :
    (ℚ × ℚ) × EvalState × DataFrame :=
  let f := evalTree s.pset ind
  let s1 : EvalState := { s with func := some f }
  let r := mseDF f X y
  let violation := s1.add_func s1.func r.2 y
  ((r.1, violation), s1, r.2)

/-- A Python value returned by `DEAPLearningSystem.score`: either the bare
integer `0` of the degraded path or a `(mse, violation)` tuple. -/
inductive ScoreVal where
| intVal : ℤ → ScoreVal
| pairVal : ℚ → ℚ → ScoreVal
deriving DecidableEq

/-- `tools.HallOfFame`: a bounded container of the best individuals. -/
structure HallOfFame where
  maxsize : Nat
  items : List GPTree

/-- The three DEAP strategy functions named by `Algorithms.algo_dict`. -/
inductive AlgoFn where
| eaSimple : AlgoFn
| eaMuPlusLambda : AlgoFn
| eaMuCommaLambda : AlgoFn
deriving DecidableEq

/-- `Algorithms.algo_dict`: maps a strategy name to its strategy function
(the mu/lambda entries are wrappers fixing `mu=5`, `lambda_=8`). -/
def algo_dict : List (String × AlgoFn) :=
  [("simple", AlgoFn.eaSimple),
   ("mu+lambda", AlgoFn.eaMuPlusLambda),
   ("mu,lambda", AlgoFn.eaMuCommaLambda)]

/-- Modelled from the spec: the attribute names of the external
`deap.algorithms` module (an external collaborator, not part of this
repository).  Its public entry points are the three generational strategy
loops of the spec plus the variation helpers; it has no attribute `ea`. -/
def deapAlgorithmsAttrs : List String :=
  ["varAnd", "eaSimple", "varOr", "eaMuPlusLambda", "eaMuCommaLambda",
   "eaGenerateUpdate"]

/-- Python attribute access `algorithms.<name>` on the `deap.algorithms`
module: raises `AttributeError` when the attribute does not exist. -/
def deapAlgorithmsGetattr (name : String) : Except String Unit :=
  if deapAlgorithmsAttrs.contains name then .ok () else .error ("AttributeError: " ++ name)

/-- `Algorithms.get_algorithm(key)`: when the key is not in `algo_dict` it
prints a warning and then evaluates the bare expression `algorithms.ea`
before returning `algo_dict.get(key, algo_dict.get("simple"))`.  The final
`.getD` arm is unreachable because `"simple"` is always present. -/
def get_algorithm (key : String) : Except String AlgoFn :=
  if (algo_dict.map Prod.fst).contains key then
    .ok ((algo_dict.lookup key).getD ((algo_dict.lookup "simple").getD AlgoFn.eaSimple))
  else
    match deapAlgorithmsGetattr "ea" with
    | .error e => .error e
    | .ok _ =>
        .ok ((algo_dict.lookup key).getD ((algo_dict.lookup "simple").getD AlgoFn.eaSimple))

/-- Modelled from the spec: the external primitive registry (`func_dict` in
`Customization`, not part of `src/`): maps a primitive name to its numeric
function.  Kept abstract as a parameter, per the spec's external-collaborator
contract. -/
def FuncDict : Type := String → List ℚ → Except String ℚ

/-- `gp.PrimitiveSet("MAIN", arity)` populated by the `addPrimitive` loop of
`create_and_reg_individual`: only the configured primitive names are
callable. -/
def mkPset (fd : FuncDict) (func_list : List String) (_arity : Nat) : Interp :=
  fun name args =>
    if func_list.contains name then fd name args else .error ("KeyError: " ++ name)

/-- An `evaluate` registration: either `eval_helper` bound to fixed data
(`reg_eval`) or the generator-based closure (`reg_gen_eval`). -/
inductive EvalReg where
| data : DataFrame → List ℚ → EvalReg
| gen : (Nat → DataFrame × List ℚ) → EvalReg

/-- `base.Toolbox()` and its registrations, recorded as the data each
`toolbox.register`/`toolbox.decorate` call binds. -/
structure Toolbox where
  expr : Option (Nat × Nat)
  individual : Bool
  population : Bool
  select : Option Nat
  expr_mut : Option (Nat × Nat)
  mutate : Option Nat
  mate : Option Nat
  evaluate : Option EvalReg

/-- A freshly constructed `base.Toolbox()` with no registrations. -/
def Toolbox.fresh : Toolbox :=
  { expr := none, individual := false, population := false, select := none,
    expr_mut := none, mutate := none, mate := none, evaluate := none }

/-- The configuration attributes set by `__init__` and the setters; `reset`
never clears these. -/
structure Config where
  path : String
  verbose : Bool
  population_size : Nat
  crossover_prob : ℚ
  mutation_prob : ℚ
  ngens : Nat
  algorithm : String
  func_list : List String
  add_func : AddFunc

/-- The full attribute state of a `DEAPLearningSystem` object.  `fitnessC`,
`pset` and `hof` are `Option` because the corresponding Python attributes
may not exist yet (`del`eted or never assigned). -/
structure DLSState where
  cfg : Config
  toolbox : Toolbox
  fitnessC : Option (List ℚ)
  pset : Option Interp
  hof : Option HallOfFame
  func : Option PredFn

/-- The state of a freshly constructed `DEAPLearningSystem` (`__init__`):
a fresh toolbox and no `Fitness`/`pset`/`hof`/`func` attributes. -/
def initState (cfg : Config) : DLSState :=
  { cfg := cfg, toolbox := Toolbox.fresh, fitnessC := none, pset := none,
    hof := none, func := none }

/-- `DEAPLearningSystem.reset()`: installs a fresh toolbox, then runs
`del self.Fitness; del self.pset; del self.hof` inside a single
`try/except`, so the first missing attribute aborts the remaining
deletions (the `except` branch only prints "Already Reset"). -/
def reset (s : DLSState) : DLSState :=
  let s0 : DLSState := { s with toolbox := Toolbox.fresh }
  match s0.fitnessC with
  | none => s0
  | some _ =>
    let s1 : DLSState := { s0 with fitnessC := none }
    match s1.pset with
    | none => s1
    | some _ =>
      let s2 : DLSState := { s1 with pset := none }
      match s2.hof with
      | none => s2
      | some _ => { s2 with hof := none }

/-- `create_fitness`: registers the minimizing single-objective fitness
class with weights `(-1.0,)`. -/
def create_fitness (s : DLSState) : DLSState :=
  { s with fitnessC := some [(-1 : ℚ)] }

/-- `create_and_reg_individual(problem_arity)`: builds `self.pset` from the
configured function list and registers the `expr` generator
(`genHalfAndHalf`, `min_=1, max_=2`) and the individual constructor. -/
def create_and_reg_individual (fd : FuncDict) (s : DLSState) (arity : Nat) : DLSState :=
  { s with pset := some (mkPset fd s.cfg.func_list arity),
           toolbox := { s.toolbox with expr := some (1, 2), individual := true } }

/-- `create_and_reg_population`. -/
def create_and_reg_population (s : DLSState) : DLSState :=
  { s with toolbox := { s.toolbox with population := true } }

/-- `reg_selection(tournsize)`: registers tournament selection. -/
def reg_selection (s : DLSState) (tournsize : Nat) : DLSState :=
  { s with toolbox := { s.toolbox with select := some tournsize } }

/-- `reg_mutation`: registers `expr_mut` (`genFull`, `min_=0, max_=2`) and
`mutUniform`, decorated with `gp.staticLimit(height, max_value=17)`. -/
def reg_mutation (s : DLSState) : DLSState :=
  { s with toolbox := { s.toolbox with expr_mut := some (0, 2), mutate := some 17 } }

/-- `reg_mating`: registers `cxOnePoint` decorated with
`gp.staticLimit(height, max_value=17)`. -/
def reg_mating (s : DLSState) : DLSState :=
  { s with toolbox := { s.toolbox with mate := some 17 } }

/-- `invariant_build_model(arity, tournsize)`: the builder chain. -/
def invariant_build_model (fd : FuncDict) (s : DLSState) (arity tournsize : Nat) : DLSState :=
  reg_mating (reg_mutation (reg_selection
    (create_and_reg_population (create_and_reg_individual fd (create_fitness s) arity))
    tournsize))

/-- `get_arity_from_X`: the number of columns of `X`. -/
def get_arity_from_X (X : DataFrame) : Nat := X.cols.length

/-- `reg_eval(X, y)`: registers `evaluate` bound to the fixed data. -/
def reg_eval (s : DLSState) (X : DataFrame) (y : List ℚ) : DLSState :=
  { s with toolbox := { s.toolbox with evaluate := some (EvalReg.data X y) } }

/-- `reg_gen_eval(generator)`: registers the generator-based `evaluate`. -/
def reg_gen_eval (s : DLSState) (g : Nat → DataFrame × List ℚ) : DLSState :=
  { s with toolbox := { s.toolbox with evaluate := some (EvalReg.gen g) } }

/-- `build_model(X, y, tournsize=3)`. -/
def build_model (fd : FuncDict) (s : DLSState) (X : DataFrame) (y : List ℚ) : DLSState :=
  reg_eval (invariant_build_model fd s (get_arity_from_X X) 3) X y

/-- `build_gen_model(generator, tournsize=3)`: draws a one-sample batch to
infer the arity, then builds and registers the generator evaluator. -/
def build_gen_model (fd : FuncDict) (s : DLSState) (g : Nat → DataFrame × List ℚ) : DLSState :=
  reg_gen_eval (invariant_build_model fd s (get_arity_from_X (g 1).1) 3) g

/-- The arguments `train` passes to the selected strategy function. -/
structure RunParams where
  toolbox : Toolbox
  popsize : Nat
  cxpb : ℚ
  mutpb : ℚ
  ngen : Nat
  hof : HallOfFame
  verbose : Bool

/-- What a strategy run returns: the final population, the per-generation
log, and the hall of fame it has updated in place. -/
def RunOut : Type := List GPTree × List (Nat × ℚ) × HallOfFame

/-- A strategy runner (the behaviour of the external `deap.algorithms`
loop selected by `get_algorithm`), kept abstract. -/
def RunFn : Type := AlgoFn → RunParams → RunOut

def mkRunParams (tb : Toolbox) (cfg : Config) (hof : HallOfFame) : RunParams :=
  { toolbox := tb, popsize := cfg.population_size, cxpb := cfg.crossover_prob,
    mutpb := cfg.mutation_prob, ngen := cfg.ngens, hof := hof,
    verbose := cfg.verbose }

/-- `DEAPLearningSystem.train()`: assigns a fresh `tools.HallOfFame(1)` to
`self.hof`, resolves the strategy via `Algorithms.get_algorithm` (which may
raise, see `get_algorithm`), runs it, and returns `(pop, log)`. -/
def trainModel (run : RunFn) (s : DLSState) :
    Except String (DLSState × (List GPTree × List (Nat × ℚ))) :=
  let freshHof : HallOfFame := { maxsize := 1, items := [] }
  let s1 : DLSState := { s with hof := some freshHof }
  match get_algorithm s1.cfg.algorithm with
  | .error e => .error e
  | .ok alg =>
      let out := run alg (mkRunParams s1.toolbox s1.cfg freshHof)
      .ok ({ s1 with hof := some out.2.2 }, (out.1, out.2.1))

/-- `DEAPLearningSystem.fit(X, y)`: `reset`, `build_model`, `train`. -/
def fit (fd : FuncDict) (run : RunFn) (s : DLSState) (X : DataFrame) (y : List ℚ) :
    Except String (DLSState × (List GPTree × List (Nat × ℚ))) :=
  trainModel run (build_model fd (reset s) X y)

/-- `DEAPLearningSystem.fit_gen(gen)`: `reset`, `build_gen_model`, `train`. -/
def fit_gen (fd : FuncDict) (run : RunFn) (s : DLSState) (g : Nat → DataFrame × List ℚ) :
    Except String (DLSState × (List GPTree × List (Nat × ℚ))) :=
  trainModel run (build_gen_model fd (reset s) g)

/-- The observable outcome of a fitting call: the returned `(pop, log)`
value together with every attribute of the resulting object that the public
interface reads (`toolbox`, `Fitness`, `pset`, `hof`, configuration) —
everything except the scratch attribute `func`. -/
def fitObs (r : Except String (DLSState × (List GPTree × List (Nat × ℚ)))) :
    Except String ((Toolbox × Option (List ℚ) × Option Interp × Option HallOfFame × Config)
      × (List GPTree × List (Nat × ℚ))) :=
  r.map (fun p => ((p.1.toolbox, p.1.fitnessC, p.1.pset, p.1.hof, p.1.cfg), p.2))

/-- `DEAPLearningSystem.score(X, y)`: `try: best = self.hof[0]; return
self.ind_score(best, X, y)`.  Any failure inside the `try` (missing `hof`
attribute, empty hall of fame, missing `pset`) is caught by the bare
`except`, which prints "Could not find Best model" and returns the bare
integer `0`.  The boolean records whether that message was printed. -/
def score (s : DLSState) (X : DataFrame) (y : List ℚ) : ScoreVal × Bool :=
  match s.hof with
  | none => (ScoreVal.intVal 0, true)
  | some h =>
    match h.items with
    | [] => (ScoreVal.intVal 0, true)
    | best :: _ =>
      match s.pset with
      | none => (ScoreVal.intVal 0, true)
      | some interp =>
          let r := ind_score { pset := interp, add_func := s.cfg.add_func, func := s.func } best X y
          (ScoreVal.pairVal r.1.1 r.1.2, false)

/-- Modelled from the spec: the bloat-control guard `gp.staticLimit(key =
attrgetter("height"), max_value)` wrapped around `mate`/`mutate` (DEAP
library code, not part of this repository).  The wrapper deep-copies the
original parents, runs the wrapped operator, and replaces every produced
individual whose height exceeds `max_value` by a randomly chosen original
parent; `choice` supplies the random index used for the i-th offspring. -/
def staticLimitApply (maxValue : Nat) (key : GPTree → Nat) (parents : List GPTree)
    (choice : Nat → Nat) : List GPTree → Nat → List GPTree
| [], _ => []
| o :: os, i =>
    (if key o > maxValue then parents.getD (choice i % parents.length) o else o)
      :: staticLimitApply maxValue key parents choice os (i + 1)

/-- Modelled from the spec: one insertion step of DEAP's
`HallOfFame.update` at capacity 1 under the single minimizing objective
(weight `-1.0`): a nonempty hall keeps its member unless the new individual
is strictly better (smaller objective); ties keep the first-seen member. -/
def HallOfFame.insert1 (fit1 : GPTree → ℚ) (h : HallOfFame) (ind : GPTree) : HallOfFame :=
  match h.items with
  | [] => if h.maxsize = 0 then h else { h with items := [ind] }
  | b :: _ => if fit1 ind < fit1 b then { h with items := [ind] } else h

/-- Modelled from the spec: `HallOfFame.update(population)`, called by the
strategy loop after every generation's evaluation. -/
def hofUpdate (fit1 : GPTree → ℚ) (h : HallOfFame) (pop : List GPTree) : HallOfFame :=
  pop.foldl (HallOfFame.insert1 fit1) h

/-- Modelled from the spec: the hall-of-fame content produced by a training
run — `train` creates `tools.HallOfFame(1)` and the strategy loop updates
it with each generation's evaluated population in order. -/
def hofRun (fit1 : GPTree → ℚ) (gens : List (List GPTree)) : HallOfFame :=
  gens.foldl (hofUpdate fit1) { maxsize := 1, items := [] }

/-- A heap of individuals, to make object identity and in-place mutation
observable: an address is an index into the cell list. -/
structure Heap where
  cells : List GPTree

/-- Allocate a fresh cell holding `t`; returns the new heap and address. -/
def Heap.alloc (h : Heap) (t : GPTree) : Heap × Nat :=
  ({ cells := h.cells ++ [t] }, h.cells.length)

/-- Read the tree stored at an address. -/
def Heap.read (h : Heap) (a : Nat) : Option GPTree :=
  h.cells[a]?

/-- Mutate the tree stored at an address in place. -/
def Heap.write (h : Heap) (a : Nat) (t : GPTree) : Heap :=
  { cells := h.cells.set a t }

/-- `DEAPLearningSystem.get_predicted_equation()`:
`self.toolbox.clone(self.hof[0])`.  Modelled from the spec: `toolbox.clone`
is `copy.deepcopy`, which allocates an independent copy of the hall-of-fame
tree and returns its (fresh) address. -/
def get_predicted_equation (h : Heap) (hofAddr : Nat) : Heap × Nat :=
  Heap.alloc h ((h.read hofAddr).getD (GPTree.var 0))

/-- The default configuration of `__init__`: `path="DEAP_data"`,
`verbose=False`, `population_size=100`, `crossover_prob=0.4`,
`mutation_prob=0.4`, `ngens=30`, `algorithm="simple"`, the default
function list, and the zero auxiliary penalty. -/
def defaultConfig : Config :=
  { path := "DEAP_data", verbose := false, population_size := 100,
    crossover_prob := 2/5, mutation_prob := 2/5, ngens := 30,
    algorithm := "simple",
    func_list := ["add", "mul", "sub", "div", "sin", "cos", "tan", "exp", "sqrt"],
    add_func := defaultAddFunc }

lemma find?_append_absent (name : String) (vals : List ℚ) :
    ∀ (cols : List (String × List ℚ)),
      cols.any (fun c => decide (c.1 = name)) = false →
      (cols ++ [(name, vals)]).find? (fun c => decide (c.1 = name)) = some (name, vals) := by
  intro cols
  induction cols with
  | nil =>
      intro _
      simp [List.find?]
  | cons c cs ih =>
      intro hany
      simp only [List.any_cons, Bool.or_eq_false_iff] at hany
      simp [List.find?, hany.1, ih hany.2]

lemma find?_overwrite (name : String) (vals : List ℚ) :
    ∀ (cols : List (String × List ℚ)),
      cols.any (fun c => decide (c.1 = name)) = true →
      ((cols.map (fun c => if c.1 = name then (c.1, vals) else c)).find?
          (fun c => decide (c.1 = name))) = some (name, vals) := by
  intro cols
  induction cols with
  | nil => intro h; simp at h
  | cons c cs ih =>
      intro hany
      by_cases hc : c.1 = name
      · simp [List.find?, hc]
      · simp only [List.any_cons, Bool.or_eq_true_iff] at hany
        rcases hany with h1 | h2
        · simp [hc] at h1
        · simp [List.find?, hc, ih h2]

lemma getCol_setCol (X : DataFrame) (name : String) (vals : List ℚ) :
    (X.setCol name vals).getCol name = vals := by
  unfold DataFrame.setCol DataFrame.getCol
  by_cases hany : X.cols.any (fun c => decide (c.1 = name)) = true
  · simp only [hany, if_true]
    rw [find?_overwrite name vals X.cols hany]
  · simp only [Bool.not_eq_true] at hany
    simp only [hany, Bool.false_eq_true, if_false]
    rw [find?_append_absent name vals X.cols hany]

lemma get_result_fst (f : PredFn) (X : DataFrame) :
    (get_result f X).1 = get_resultVals f X.rowsOf := by
  unfold get_result
  exact getCol_setCol X "result" (get_resultVals f X.rowsOf)

lemma get_result_preserves (f : PredFn) (X : DataFrame) (h : "result" ∉ X.names) :
    (get_result f X).2 = X := by
  unfold get_result DataFrame.setCol DataFrame.dropCol
  have hany : X.cols.any (fun c => decide (c.1 = "result")) = false := by
    rw [List.any_eq_false]
    intro c hc
    simp only [decide_eq_true_eq]
    intro hcr
    exact h (by simpa [DataFrame.names, hcr] using List.mem_map_of_mem Prod.fst hc)
  simp only [hany, Bool.false_eq_true, if_false]
  have hkeep : X.cols.filter (fun c => decide (¬ c.1 = "result")) = X.cols := by
    rw [List.filter_eq_self]
    intro c hc
    simp only [decide_eq_true_eq]
    intro hcr
    exact h (by simpa [DataFrame.names, hcr] using List.mem_map_of_mem Prod.fst hc)
  have hdropnew :
      List.filter (fun c => decide (¬ c.1 = "result"))
        [("result", get_resultVals f X.rowsOf)] = [] := by
    simp
  rw [List.filter_append, hkeep, hdropnew, List.append_nil]

lemma filter_map_overwrite (name : String) (vals : List ℚ) :
    ∀ (cols : List (String × List ℚ)),
      ((cols.map (fun c => if c.1 = name then (c.1, vals) else c)).filter
          (fun c => decide (¬ c.1 = name))) =
        cols.filter (fun c => decide (¬ c.1 = name)) := by
  intro cols
  induction cols with
  | nil => rfl
  | cons c cs ih =>
      rw [List.map_cons, List.filter_cons, List.filter_cons]
      by_cases hc : c.1 = name
      · have hA : ¬ ((decide (¬ (if c.1 = name then (c.1, vals) else c).1 = name)) = true) := by
          simp [hc]
        have hB : ¬ ((decide (¬ c.1 = name)) = true) := by simp [hc]
        rw [if_neg hA, if_neg hB]
        exact ih
      · have hA : (decide (¬ (if c.1 = name then (c.1, vals) else c).1 = name)) = true := by
          simp [hc]
        have hB : (decide (¬ c.1 = name)) = true := by simp [hc]
        rw [if_pos hA, if_pos hB, if_neg hc, ih]

lemma get_result_drops_existing (f : PredFn) (X : DataFrame) (h : "result" ∈ X.names) :
    (get_result f X).2 = X.dropCol "result" := by
  unfold get_result DataFrame.setCol DataFrame.dropCol
  have hany : X.cols.any (fun c => decide (c.1 = "result")) = true := by
    rw [List.any_eq_true]
    rcases List.mem_map.mp h with ⟨c, hc, hcr⟩
    exact ⟨c, hc, by simpa using hcr⟩
  simp only [hany, if_true]
  exact congrArg DataFrame.mk (filter_map_overwrite "result" (get_resultVals f X.rowsOf) X.cols)

lemma dropCol_ne_of_mem (X : DataFrame) (h : "result" ∈ X.names) :
    X.dropCol "result" ≠ X := by
  intro heq
  have hmem : "result" ∈ (X.dropCol "result").names := by rw [heq]; exact h
  rcases List.mem_map.mp hmem with ⟨c, hc, hcr⟩
  have := List.of_mem_filter hc
  simp only [decide_eq_true_eq] at this
  exact this hcr

lemma get_resultVals_getD (f : PredFn) :
    ∀ (rows : List (List ℚ)) (i : Nat), i < rows.length →
      (get_resultVals f rows).getD i 0 =
        match f (rows.getD i []) with
        | .ok v => v
        | .error _ => 9999 := by
  intro rows
  induction rows with
  | nil => intro i h; exact absurd h (by simp)
  | cons r rs ih =>
      intro i h
      cases i with
      | zero => simp [get_resultVals]
      | succ n =>
          simp only [get_resultVals, List.map_cons, List.getD_cons_succ]
          exact ih n (by simpa using h)

lemma get_resultVals_allfail (f : PredFn) :
    ∀ (rows : List (List ℚ)) (y : List ℚ), (∀ r ∈ rows, ∃ e, f r = .error e) →
      List.zipWith (fun a b => a - b) (get_resultVals f rows) y =
        List.zipWith (fun a b => a - b) (rows.map (fun _ => (9999 : ℚ))) y := by
  intro rows
  induction rows with
  | nil => intro y _; rfl
  | cons r rs ih =>
      intro y hall
      cases y with
      | nil => rfl
      | cons b bs =>
          rcases hall r (by simp) with ⟨e, he⟩
          simp only [get_resultVals, List.map_cons, List.zipWith_cons_cons, he]
          exact congrArg (List.cons (9999 - b)) (ih bs (fun r2 h2 => hall r2 (by simp [h2])))

lemma insert1_facts (fit1 : GPTree → ℚ) (h : HallOfFame) (ind : GPTree)
    (hm : h.maxsize = 1) (hl : h.items.length ≤ 1) :
    (HallOfFame.insert1 fit1 h ind).maxsize = 1 ∧
    (HallOfFame.insert1 fit1 h ind).items.length ≤ 1 ∧
    (HallOfFame.insert1 fit1 h ind).items ≠ [] ∧
    ∀ b ∈ (HallOfFame.insert1 fit1 h ind).items,
      (∀ c ∈ h.items, fit1 b ≤ fit1 c) ∧ fit1 b ≤ fit1 ind := by
  obtain ⟨ms, items⟩ := h
  simp only at hm hl
  subst hm
  cases items with
  | nil => simp [HallOfFame.insert1]
  | cons b0 rest =>
      have hrest : rest = [] := by simpa using hl
      subst hrest
      by_cases hlt : fit1 ind < fit1 b0
      · simp [HallOfFame.insert1, hlt, le_of_lt hlt]
      · simp [HallOfFame.insert1, hlt, not_lt.mp hlt]

lemma hofUpdate_facts (fit1 : GPTree → ℚ) :
    ∀ (pop : List GPTree) (h : HallOfFame), h.maxsize = 1 → h.items.length ≤ 1 →
      (hofUpdate fit1 h pop).maxsize = 1 ∧
      (hofUpdate fit1 h pop).items.length ≤ 1 ∧
      (∀ b ∈ (hofUpdate fit1 h pop).items,
        (∀ c ∈ h.items, fit1 b ≤ fit1 c) ∧ (∀ x ∈ pop, fit1 b ≤ fit1 x)) ∧
      ((h.items ≠ [] ∨ pop ≠ []) → (hofUpdate fit1 h pop).items ≠ []) := by
  intro pop
  induction pop with
  | nil =>
      intro h hm hl
      refine ⟨hm, hl, ?_, ?_⟩
      · intro b hb
        simp only [hofUpdate, List.foldl_nil] at hb
        refine ⟨?_, by simp⟩
        intro c hc
        cases hitems : h.items with
        | nil => rw [hitems] at hb; exact absurd hb (by simp)
        | cons c0 rest =>
            have hrest : rest = [] := by rw [hitems] at hl; simpa using hl
            subst hrest
            rw [hitems] at hb hc
            simp only [List.mem_singleton] at hb hc
            subst hb; subst hc
            exact le_refl _
      · intro hne
        rcases hne with hne | hne
        · exact hne
        · exact absurd rfl hne
  | cons x xs ih =>
      intro h hm hl
      have hstep := insert1_facts fit1 h x hm hl
      have hfold : hofUpdate fit1 h (x :: xs) = hofUpdate fit1 (HallOfFame.insert1 fit1 h x) xs := rfl
      rcases ih (HallOfFame.insert1 fit1 h x) hstep.1 hstep.2.1 with ⟨ihm, ihl, ihle, ihne⟩
      rw [hfold]
      refine ⟨ihm, ihl, ?_, ?_⟩
      · intro b hb
        rcases ihle b hb with ⟨hbh, hbxs⟩
        rcases hne' : (HallOfFame.insert1 fit1 h x).items with _ | ⟨b', rest'⟩
        · exact absurd hne' hstep.2.2.1
        · have hb' : b' ∈ (HallOfFame.insert1 fit1 h x).items := by rw [hne']; simp
          rcases hstep.2.2.2 b' hb' with ⟨hb'h, hb'x⟩
          have hbb' : fit1 b ≤ fit1 b' := hbh b' hb'
          refine ⟨?_, ?_⟩
          · intro c hc
            exact le_trans hbb' (hb'h c hc)
          · intro z hz
            rcases List.mem_cons.mp hz with hz | hz
            · subst hz; exact le_trans hbb' hb'x
            · exact hbxs z hz
      · intro _
        exact ihne (Or.inl hstep.2.2.1)

lemma hofRun_gen_facts (fit1 : GPTree → ℚ) :
    ∀ (gens : List (List GPTree)) (h : HallOfFame), h.maxsize = 1 → h.items.length ≤ 1 →
      (gens.foldl (hofUpdate fit1) h).maxsize = 1 ∧
      (gens.foldl (hofUpdate fit1) h).items.length ≤ 1 ∧
      (∀ b ∈ (gens.foldl (hofUpdate fit1) h).items,
        (∀ c ∈ h.items, fit1 b ≤ fit1 c) ∧ (∀ x ∈ gens.flatten, fit1 b ≤ fit1 x)) ∧
      ((h.items ≠ [] ∨ gens.flatten ≠ []) → (gens.foldl (hofUpdate fit1) h).items ≠ []) := by
  intro gens
  induction gens with
  | nil =>
      intro h hm hl
      refine ⟨hm, hl, ?_, ?_⟩
      · intro b hb
        simp only [List.foldl_nil] at hb
        refine ⟨?_, by simp⟩
        intro c hc
        cases hitems : h.items with
        | nil => rw [hitems] at hb; exact absurd hb (by simp)
        | cons c0 rest =>
            have hrest : rest = [] := by rw [hitems] at hl; simpa using hl
            subst hrest
            rw [hitems] at hb hc
            simp only [List.mem_singleton] at hb hc
            subst hb; subst hc
            exact le_refl _
      · intro hne
        rcases hne with hne | hne
        · exact hne
        · simp at hne
  | cons g gs ih =>
      intro h hm hl
      have hstep := hofUpdate_facts fit1 g h hm hl
      have hfold : (g :: gs).foldl (hofUpdate fit1) h
          = gs.foldl (hofUpdate fit1) (hofUpdate fit1 h g) := rfl
      rcases ih (hofUpdate fit1 h g) hstep.1 hstep.2.1 with ⟨ihm, ihl, ihle, ihne⟩
      rw [hfold]
      refine ⟨ihm, ihl, ?_, ?_⟩
      · intro b hb
        rcases ihle b hb with ⟨hbh, hbgs⟩
        cases hne' : (hofUpdate fit1 h g).items with
        | nil =>
            have hh : h.items = [] := by
              by_contra hx
              exact hstep.2.2.2 (Or.inl hx) hne'
            have hg : g = [] := by
              by_contra hx
              exact hstep.2.2.2 (Or.inr hx) hne'
            refine ⟨?_, ?_⟩
            · intro c hc
              rw [hh] at hc
              exact absurd hc (by simp)
            · intro x hx
              rw [List.flatten_cons, hg] at hx
              simp only [List.nil_append] at hx
              exact hbgs x hx
        | cons b' rest' =>
            have hb' : b' ∈ (hofUpdate fit1 h g).items := by rw [hne']; simp
            rcases hstep.2.2.1 b' hb' with ⟨hb'h, hb'g⟩
            have hbb' : fit1 b ≤ fit1 b' := hbh b' hb'
            refine ⟨?_, ?_⟩
            · intro c hc
              exact le_trans hbb' (hb'h c hc)
            · intro x hx
              rw [List.flatten_cons] at hx
              rcases List.mem_append.mp hx with hx | hx
              · exact le_trans hbb' (hb'g x hx)
              · exact hbgs x hx
      · intro hne
        rcases hne with hne | hne
        · exact ihne (Or.inl (hstep.2.2.2 (Or.inl hne)))
        · rw [List.flatten_cons] at hne
          by_cases hg : g = []
          · refine ihne (Or.inr ?_)
            rw [hg] at hne
            simpa using hne
          · exact ihne (Or.inl (hstep.2.2.2 (Or.inr hg)))

lemma fitObs_map_func (r : Except String (DLSState × (List GPTree × List (Nat × ℚ))))
    (fn : Option PredFn) :
    fitObs (r.map (fun p => ({ p.1 with func := fn }, p.2))) = fitObs r := by
  cases r <;> rfl

lemma fit_as_fresh (fd : FuncDict) (run : RunFn) (s : DLSState) (X : DataFrame)
    (y : List ℚ) :
    fit fd run s X y =
      (fit fd run (initState s.cfg) X y).map
        (fun p => ({ p.1 with func := s.func }, p.2)) := by
  obtain ⟨c, tb, fc, ps, hh, fn⟩ := s
  cases fc <;> cases ps <;> cases hh <;> cases halg : get_algorithm c.algorithm <;>
    simp [fit, trainModel, build_model, reset, invariant_build_model, create_fitness,
      create_and_reg_individual, create_and_reg_population, reg_selection, reg_mutation,
      reg_mating, reg_eval, initState, mkRunParams, get_arity_from_X, halg, Except.map]

lemma fit_gen_as_fresh (fd : FuncDict) (run : RunFn) (s : DLSState)
    (g : Nat → DataFrame × List ℚ) :
    fit_gen fd run s g =
      (fit_gen fd run (initState s.cfg) g).map
        (fun p => ({ p.1 with func := s.func }, p.2)) := by
  obtain ⟨c, tb, fc, ps, hh, fn⟩ := s
  cases fc <;> cases ps <;> cases hh <;> cases halg : get_algorithm c.algorithm <;>
    simp [fit_gen, trainModel, build_gen_model, reset, invariant_build_model, create_fitness,
      create_and_reg_individual, create_and_reg_population, reg_selection, reg_mutation,
      reg_mating, reg_gen_eval, initState, mkRunParams, get_arity_from_X, halg, Except.map]

/-- C1: the claim says that for every algorithm name outside
`{"simple", "mu+lambda", "mu,lambda"}`, `Algorithms.get_algorithm` returns
the `eaSimple` strategy after emitting a warning rather than failing.  On
the code this is false: the unknown-key branch evaluates the stray
expression `algorithms.ea`, and the `deap.algorithms` module has no
attribute `ea`, so the call raises `AttributeError` before reaching its
fallback return — contradicting both the claim and the function's own
docstring ("Defaults to eaSimple if key not found").  This theorem
evaluates the embedded code at the failing input `"foo"` and checks the
three recognized keys still resolve correctly. -/
theorem get_algorithm_unknown_key_raises :
    get_algorithm "foo" = Except.error ("AttributeError: " ++ "ea") ∧
    get_algorithm "simple" = Except.ok AlgoFn.eaSimple ∧
    get_algorithm "mu+lambda" = Except.ok AlgoFn.eaMuPlusLambda ∧
    get_algorithm "mu,lambda" = Except.ok AlgoFn.eaMuCommaLambda := by
  refine ⟨?_, ?_, ?_, ?_⟩ <;> rfl

/-- C10: for every `X` without a pre-existing `result` column, `get_result`
leaves `X` with exactly its original columns; if `X` already has a `result`
column, that column is overwritten and then removed, so `get_result` does
mutate such an `X`. -/
theorem get_result_frame_effect (f : PredFn) (X : DataFrame) :
    ("result" ∉ X.names → (get_result f X).2 = X) ∧
    ("result" ∈ X.names →
      (get_result f X).2 = X.dropCol "result" ∧ (get_result f X).2 ≠ X) := by
  refine ⟨fun h => get_result_preserves f X h, fun h => ⟨?_, ?_⟩⟩
  · exact get_result_drops_existing f X h
  · rw [get_result_drops_existing f X h]
    exact dropCol_ne_of_mem X h

/-- Closed instance of `get_result_frame_effect`: a frame without a
`result` column is restored exactly; one with a `result` column comes back
without it, a change. -/
theorem get_result_frame_effect_witness :
    ((get_result (fun _ => .ok 0) ⟨[("x", [1, 2])]⟩).2 = ⟨[("x", [1, 2])]⟩) ∧
    ((get_result (fun _ => .ok 0) ⟨[("result", [1])]⟩).2 =
        DataFrame.dropCol ⟨[("result", [1])]⟩ "result" ∧
      (get_result (fun _ => .ok 0) ⟨[("result", [1])]⟩).2 ≠ ⟨[("result", [1])]⟩) := by
  refine ⟨?_, ?_⟩
  · exact (get_result_frame_effect (fun _ => .ok 0) ⟨[("x", [1, 2])]⟩).1 (by decide)
  · exact (get_result_frame_effect (fun _ => .ok 0) ⟨[("result", [1])]⟩).2 (by decide)

/-- C2: every row whose evaluation raises contributes the sentinel `9999`
to the prediction series instead of propagating (and successful rows
contribute their value), the series always has one entry per row — so
evaluation over all rows is total — and `_mse` is the mean of squared
differences between this sentinel-substituted series and `y`; in
particular, when every row fails the mse is computed from the constant
sentinel series. -/
theorem get_result_substitutes_sentinel (f : PredFn) (rows : List (List ℚ))
    (X : DataFrame) (y : List ℚ) :
    (get_resultVals f rows).length = rows.length ∧
    (∀ i, i < rows.length → ∀ e, f (rows.getD i []) = .error e →
      (get_resultVals f rows).getD i 0 = 9999) ∧
    (∀ i, i < rows.length → ∀ v, f (rows.getD i []) = .ok v →
      (get_resultVals f rows).getD i 0 = v) ∧
    (mseDF f X y).1 =
      npMean ((List.zipWith (fun a b => a - b) (get_resultVals f X.rowsOf) y).map
        (fun d => d * d)) ∧
    ((∀ r ∈ X.rowsOf, ∃ e, f r = .error e) →
      (mseDF f X y).1 =
        npMean ((List.zipWith (fun a b => a - b) (X.rowsOf.map (fun _ => (9999 : ℚ))) y).map
          (fun d => d * d))) := by
  refine ⟨by simp [get_resultVals], ?_, ?_, ?_, ?_⟩
  · intro i hi e he
    rw [get_resultVals_getD f rows i hi, he]
  · intro i hi v hv
    rw [get_resultVals_getD f rows i hi, hv]
  · simp only [mseDF]
    rw [get_result_fst]
  · intro hall
    simp only [mseDF]
    rw [get_result_fst, get_resultVals_allfail f X.rowsOf y hall]

/-- Closed instance of `get_result_substitutes_sentinel`: with a predictor
that raises on the first row and succeeds on the second, the series holds
`9999` then the computed value, and on an all-failing frame the mse equals
the sentinel-based mean. -/
theorem get_result_substitutes_sentinel_witness :
    (get_resultVals (fun r => if r = [0] then .error "ValueError" else .ok 5)
        [[0], [1]]).getD 0 0 = 9999 ∧
    (get_resultVals (fun r => if r = [0] then .error "ValueError" else .ok 5)
        [[0], [1]]).getD 1 0 = 5 ∧
    (mseDF (fun _ => .error "ValueError") ⟨[("x", [0, 1])]⟩ [1, 2]).1 =
      npMean ((List.zipWith (fun a b => a - b)
        ((DataFrame.rowsOf ⟨[("x", [0, 1])]⟩).map (fun _ => (9999 : ℚ))) [1, 2]).map
          (fun d => d * d)) := by
  refine ⟨?_, ?_, ?_⟩
  · exact (get_result_substitutes_sentinel
        (fun r => if r = [0] then .error "ValueError" else .ok 5) [[0], [1]]
        ⟨[]⟩ []).2.1 0 (by decide) "ValueError" (by rfl)
  · exact (get_result_substitutes_sentinel
        (fun r => if r = [0] then .error "ValueError" else .ok 5) [[0], [1]]
        ⟨[]⟩ []).2.2.1 1 (by decide) 5 (by rfl)
  · exact (get_result_substitutes_sentinel (fun _ => .error "ValueError") []
        ⟨[("x", [0, 1])]⟩ [1, 2]).2.2.2.2 (fun r _ => ⟨"ValueError", rfl⟩)

/-- C3: with no hall of fame (`self.hof` never assigned), `score` does not
raise: it reports the missing model (prints "Could not find Best model")
and returns the bare integer `0`, a value distinct from every real score —
real scores being `(mse, violation)` pairs, which `score` returns on the
trained path. -/
theorem score_untrained_degrades_distinguishably :
    (∀ (s : DLSState) (X : DataFrame) (y : List ℚ), s.hof = none →
      score s X y = (ScoreVal.intVal 0, true)) ∧
    (∀ (m p : ℚ), ScoreVal.intVal 0 ≠ ScoreVal.pairVal m p) ∧
    (∀ (s : DLSState) (X : DataFrame) (y : List ℚ) (h : HallOfFame) (best : GPTree)
      (rest : List GPTree) (interp : Interp), s.hof = some h →
      h.items = best :: rest → s.pset = some interp →
      score s X y =
        (ScoreVal.pairVal
          (ind_score { pset := interp, add_func := s.cfg.add_func, func := s.func }
            best X y).1.1
          (ind_score { pset := interp, add_func := s.cfg.add_func, func := s.func }
            best X y).1.2,
         false)) := by
  refine ⟨?_, ?_, ?_⟩
  · intro s X y hh
    simp [score, hh]
  · intro m p hq
    exact ScoreVal.noConfusion hq
  · intro s X y h best rest interp hh hitems hpset
    simp [score, hh, hitems, hpset]

/-- Closed instance of `score_untrained_degrades_distinguishably`: a fresh
object's `score` degrades to the reported integer `0`, which differs from
the zero pair, while a trained state yields the pair shape. -/
theorem score_untrained_degrades_distinguishably_witness :
    score (initState defaultConfig) ⟨[]⟩ [] = (ScoreVal.intVal 0, true) ∧
    ScoreVal.intVal 0 ≠ ScoreVal.pairVal 0 0 ∧
    score { initState defaultConfig with
              hof := some { maxsize := 1, items := [GPTree.var 0] },
              pset := some (mkPset (fun _ _ => .ok 0) ["add"] 1) } ⟨[]⟩ [] =
      (ScoreVal.pairVal
        (ind_score { pset := mkPset (fun _ _ => .ok 0) ["add"] 1,
                     add_func := defaultConfig.add_func, func := none }
          (GPTree.var 0) ⟨[]⟩ []).1.1
        (ind_score { pset := mkPset (fun _ _ => .ok 0) ["add"] 1,
                     add_func := defaultConfig.add_func, func := none }
          (GPTree.var 0) ⟨[]⟩ []).1.2,
       false) := by
  refine ⟨?_, ?_, ?_⟩
  · exact score_untrained_degrades_distinguishably.1 (initState defaultConfig) ⟨[]⟩ [] rfl
  · exact score_untrained_degrades_distinguishably.2.1 0 0
  · exact score_untrained_degrades_distinguishably.2.2
      { initState defaultConfig with
          hof := some { maxsize := 1, items := [GPTree.var 0] },
          pset := some (mkPset (fun _ _ => .ok 0) ["add"] 1) } ⟨[]⟩ []
      { maxsize := 1, items := [GPTree.var 0] } (GPTree.var 0) []
      (mkPset (fun _ _ => .ok 0) ["add"] 1) rfl rfl rfl

/-- C5: the training-time evaluator `eval_helper` returns the one-element
tuple `(mse + aux,)` — the sum of exactly the two components that the
scoring call `ind_score` returns as the decomposed pair `(mse, aux)` — and
with the default (unset) auxiliary penalty the training fitness is just
`(mse,)`. -/
theorem eval_helper_ind_score_shapes (s : EvalState) (ind : GPTree) (X : DataFrame)
    (y : List ℚ) :
    (eval_helper s ind X y).1 =
      [(ind_score s ind X y).1.1 + (ind_score s ind X y).1.2] ∧
    (ind_score s ind X y).1 =
      ((mseDF (evalTree s.pset ind) X y).1,
       s.add_func (some (evalTree s.pset ind)) (mseDF (evalTree s.pset ind) X y).2 y) ∧
    (s.add_func = defaultAddFunc →
      (eval_helper s ind X y).1 = [(mseDF (evalTree s.pset ind) X y).1]) := by
  refine ⟨rfl, rfl, ?_⟩
  intro hdef
  simp [eval_helper, hdef, defaultAddFunc]

/-- Closed instance of `eval_helper_ind_score_shapes`: with the default
auxiliary penalty the training fitness tuple is exactly `(mse,)`. -/
theorem eval_helper_ind_score_shapes_witness :
    (eval_helper { pset := fun _ _ => .ok 0, add_func := defaultAddFunc, func := none }
        (GPTree.var 0) ⟨[("x", [1, 2])]⟩ [1, 2]).1 =
      [(mseDF (evalTree (fun _ _ => .ok 0) (GPTree.var 0)) ⟨[("x", [1, 2])]⟩ [1, 2]).1] :=
  (eval_helper_ind_score_shapes
    { pset := fun _ _ => .ok 0, add_func := defaultAddFunc, func := none }
    (GPTree.var 0) ⟨[("x", [1, 2])]⟩ [1, 2]).2.2 rfl

/-- C8: fitness evaluation is a pure function of its inputs with no hidden
state between individuals' evaluations: (i) the only attribute
`eval_helper` writes is `self.func` — the intentional extension point
holding the currently compiled function; (ii) the data frame is handed
back unchanged (provided it has no pre-existing `result` column, cf. the
frame-effect claim); (iii) evaluating `ind2` after some other individual
`ind1` has been evaluated yields exactly the value of evaluating `ind2`
directly — no state written by the first evaluation leaks into the
second. -/
theorem eval_purity_no_hidden_state (s : EvalState) (ind1 ind2 : GPTree)
    (X1 : DataFrame) (y1 : List ℚ) (X : DataFrame) (y : List ℚ) :
    (eval_helper s ind1 X1 y1).2.1 = { s with func := some (evalTree s.pset ind1) } ∧
    ("result" ∉ X1.names → (eval_helper s ind1 X1 y1).2.2 = X1) ∧
    (eval_helper (eval_helper s ind1 X1 y1).2.1 ind2 X y).1 =
      (eval_helper s ind2 X y).1 := by
  refine ⟨rfl, ?_, rfl⟩
  intro h
  simp only [eval_helper, mseDF]
  exact get_result_preserves (evalTree s.pset ind1) X1 h

/-- Closed instance of `eval_purity_no_hidden_state`: on a frame with no
`result` column, a first evaluation hands the frame back unchanged and a
second individual's evaluation value is unaffected by it. -/
theorem eval_purity_no_hidden_state_witness :
    (eval_helper { pset := fun _ _ => .ok 0, add_func := defaultAddFunc, func := none }
        (GPTree.var 0) ⟨[("x", [1, 2])]⟩ [1, 2]).2.2 = ⟨[("x", [1, 2])]⟩ ∧
    (eval_helper
        (eval_helper { pset := fun _ _ => .ok 0, add_func := defaultAddFunc, func := none }
          (GPTree.var 0) ⟨[("x", [1, 2])]⟩ [1, 2]).2.1
        (GPTree.const 3) ⟨[("x", [1, 2])]⟩ [1, 2]).1 =
      (eval_helper { pset := fun _ _ => .ok 0, add_func := defaultAddFunc, func := none }
        (GPTree.const 3) ⟨[("x", [1, 2])]⟩ [1, 2]).1 := by
  refine ⟨?_, ?_⟩
  · exact (eval_purity_no_hidden_state
      { pset := fun _ _ => .ok 0, add_func := defaultAddFunc, func := none }
      (GPTree.var 0) (GPTree.const 3) ⟨[("x", [1, 2])]⟩ [1, 2] ⟨[("x", [1, 2])]⟩
      [1, 2]).2.1 (by decide)
  · exact (eval_purity_no_hidden_state
      { pset := fun _ _ => .ok 0, add_func := defaultAddFunc, func := none }
      (GPTree.var 0) (GPTree.const 3) ⟨[("x", [1, 2])]⟩ [1, 2] ⟨[("x", [1, 2])]⟩
      [1, 2]).2.2

/-- C4: for nonempty parents all within the height cap, every individual
produced by the statically limited `mate`/`mutate` wrapper (max height 17)
has height at most 17, and each output is either a raw offspring of the
wrapped operator (then itself within the cap) or one of the original
parents returned unchanged in place of an over-tall offspring. -/
theorem staticLimit_height_bound (parents : List GPTree) (choice : Nat → Nat) :
    ∀ (offspring : List GPTree) (i0 : Nat),
      parents ≠ [] →
      (∀ p ∈ parents, p.height ≤ 17) →
      ∀ o ∈ staticLimitApply 17 GPTree.height parents choice offspring i0,
        o.height ≤ 17 ∧ (o ∈ offspring ∨ o ∈ parents) := by
  intro offspring
  induction offspring with
  | nil =>
      intro i0 _ _ o ho
      exact absurd ho (by simp [staticLimitApply])
  | cons x xs ih =>
      intro i0 hne hpar o ho
      rw [staticLimitApply] at ho
      rcases List.mem_cons.mp ho with ho | ho
      · by_cases hx : x.height > 17
        · rw [if_pos hx] at ho
          have hlen : choice i0 % parents.length < parents.length :=
            Nat.mod_lt _ (List.length_pos.mpr hne)
          have hmem : parents.getD (choice i0 % parents.length) x ∈ parents := by
            rw [List.getD_eq_getElem parents x hlen]
            exact List.getElem_mem hlen
          subst ho
          exact ⟨hpar _ hmem, Or.inr hmem⟩
        · rw [if_neg hx] at ho
          subst ho
          exact ⟨Nat.le_of_not_lt hx, Or.inl (by simp)⟩
      · rcases ih (i0 + 1) hne hpar o ho with ⟨hh, hmem⟩
        refine ⟨hh, ?_⟩
        rcases hmem with hmem | hmem
        · exact Or.inl (by simp [hmem])
        · exact Or.inr hmem

/-- Closed instance of `staticLimit_height_bound`: a kept offspring is
within the cap and accounted for. -/
theorem staticLimit_height_bound_witness :
    GPTree.height (GPTree.var 1) ≤ 17 ∧
    (GPTree.var 1 ∈ [GPTree.var 1] ∨ GPTree.var 1 ∈ [GPTree.var 0]) := by
  refine staticLimit_height_bound [GPTree.var 0] (fun _ => 0) [GPTree.var 1] 0
    (by simp) ?_ (GPTree.var 1) ?_
  · intro p hp
    simp only [List.mem_singleton] at hp
    subst hp
    simp [GPTree.height]
  · show GPTree.var 1 ∈ staticLimitApply 17 GPTree.height [GPTree.var 0] (fun _ => 0)
      [GPTree.var 1] 0
    rw [staticLimitApply]
    simp [staticLimitApply, GPTree.height]

/-- C9: after training, `get_predicted_equation` returns a clone of the
hall-of-fame best individual at a fresh address: the clone holds an equal
tree, and mutating the clone in place leaves the individual stored at the
hall-of-fame address unchanged (while the clone's own cell does change). -/
theorem get_predicted_equation_independent_copy (h : Heap) (a : Nat)
    (ha : a < h.cells.length) :
    (get_predicted_equation h a).2 ≠ a ∧
    (get_predicted_equation h a).1.read a = h.read a ∧
    (get_predicted_equation h a).1.read (get_predicted_equation h a).2 = h.read a ∧
    ∀ t, ((get_predicted_equation h a).1.write (get_predicted_equation h a).2 t).read a
        = h.read a := by
  have hsome : h.read a = some (h.cells.get ⟨a, ha⟩) := by
    show h.cells[a]? = _
    rw [List.getElem?_eq_getElem ha]
    rfl
  refine ⟨?_, ?_, ?_, ?_⟩
  · show h.cells.length ≠ a
    omega
  · show (h.cells ++ [(h.read a).getD (GPTree.var 0)])[a]? = h.read a
    rw [List.getElem?_append_left ha]
    rfl
  · show (h.cells ++ [(h.read a).getD (GPTree.var 0)])[h.cells.length]? = h.read a
    rw [List.getElem?_concat_length, hsome]
    rfl
  · intro t
    show ((h.cells ++ [(h.read a).getD (GPTree.var 0)]).set h.cells.length t)[a]? = h.read a
    rw [List.getElem?_set_ne (by omega), List.getElem?_append_left ha]
    rfl

/-- Closed instance of `get_predicted_equation_independent_copy` on a
one-cell heap. -/
theorem get_predicted_equation_independent_copy_witness :
    (get_predicted_equation ⟨[GPTree.var 0]⟩ 0).2 ≠ 0 ∧
    (get_predicted_equation ⟨[GPTree.var 0]⟩ 0).1.read 0 = Heap.read ⟨[GPTree.var 0]⟩ 0 ∧
    (get_predicted_equation ⟨[GPTree.var 0]⟩ 0).1.read
        (get_predicted_equation ⟨[GPTree.var 0]⟩ 0).2 = Heap.read ⟨[GPTree.var 0]⟩ 0 ∧
    ∀ t, ((get_predicted_equation ⟨[GPTree.var 0]⟩ 0).1.write
        (get_predicted_equation ⟨[GPTree.var 0]⟩ 0).2 t).read 0
          = Heap.read ⟨[GPTree.var 0]⟩ 0 :=
  get_predicted_equation_independent_copy ⟨[GPTree.var 0]⟩ 0 (by decide)

/-- C6: `train` assigns a fresh `HallOfFame(1)` on every call — its result
never depends on any previously trained hall of fame — and the hall-of-fame
content produced by updating that capacity-1 hall with every generation's
population holds at most one individual, one whose fitness is at least as
good (no larger, under the minimizing objective) as every individual seen
in every generation, and is nonempty as soon as any individual was seen. -/
theorem hall_of_fame_fresh_capacity_best :
    (∀ (run : RunFn) (s : DLSState) (h1 h2 : Option HallOfFame),
      trainModel run { s with hof := h1 } = trainModel run { s with hof := h2 }) ∧
    (∀ (fit1 : GPTree → ℚ) (gens : List (List GPTree)),
      (hofRun fit1 gens).maxsize = 1 ∧
      (hofRun fit1 gens).items.length ≤ 1 ∧
      (∀ b ∈ (hofRun fit1 gens).items, ∀ ind ∈ gens.flatten, fit1 b ≤ fit1 ind) ∧
      (gens.flatten ≠ [] → (hofRun fit1 gens).items ≠ [])) := by
  refine ⟨?_, ?_⟩
  · intro run s h1 h2
    rfl
  · intro fit1 gens
    have hf := hofRun_gen_facts fit1 gens { maxsize := 1, items := [] } rfl (by simp)
    exact ⟨hf.1, hf.2.1, fun b hb ind hind => (hf.2.2.1 b hb).2 ind hind,
      fun hne => hf.2.2.2 (Or.inr hne)⟩

/-- Closed instance of `hall_of_fame_fresh_capacity_best`: training from a
state with a stale hall of fame equals training from one without, and a
one-generation run leaves a nonempty capacity-1 hall. -/
theorem hall_of_fame_fresh_capacity_best_witness :
    trainModel (fun _ p => ([], [], p.hof)) { initState defaultConfig with hof := none }
      = trainModel (fun _ p => ([], [], p.hof))
          { initState defaultConfig with
              hof := some { maxsize := 5, items := [GPTree.var 0] } } ∧
    (hofRun (fun _ => 0) [[GPTree.var 0]]).items ≠ [] ∧
    (hofRun (fun _ => 0) [[GPTree.var 0]]).maxsize = 1 := by
  refine ⟨?_, ?_, ?_⟩
  · exact hall_of_fame_fresh_capacity_best.1 (fun _ p => ([], [], p.hof))
      (initState defaultConfig) none (some { maxsize := 5, items := [GPTree.var 0] })
  · exact (hall_of_fame_fresh_capacity_best.2 (fun _ => 0) [[GPTree.var 0]]).2.2.2 (by simp)
  · exact (hall_of_fame_fresh_capacity_best.2 (fun _ => 0) [[GPTree.var 0]]).1

/-- C7: `fit` and `fit_gen` first force `reset()` and then build and train,
so every observable part of their outcome — the returned `(pop, log)` and
the resulting object's toolbox, fitness class, primitive set, hall of fame
and configuration — is independent of the prior working state: two objects
with the same configuration give identical results, each equal to the
result on a freshly initialized object. -/
theorem fit_independent_of_prior_state (fd : FuncDict) (run : RunFn)
    (s1 s2 : DLSState) (X : DataFrame) (y : List ℚ) (g : Nat → DataFrame × List ℚ)
    (hcfg : s1.cfg = s2.cfg) :
    fitObs (fit fd run s1 X y) = fitObs (fit fd run s2 X y) ∧
    fitObs (fit fd run s1 X y) = fitObs (fit fd run (initState s1.cfg) X y) ∧
    fitObs (fit_gen fd run s1 g) = fitObs (fit_gen fd run s2 g) ∧
    fitObs (fit_gen fd run s1 g) = fitObs (fit_gen fd run (initState s1.cfg) g) := by
  have h1 : fitObs (fit fd run s1 X y) = fitObs (fit fd run (initState s1.cfg) X y) := by
    rw [fit_as_fresh fd run s1 X y, fitObs_map_func]
  have h2 : fitObs (fit fd run s2 X y) = fitObs (fit fd run (initState s2.cfg) X y) := by
    rw [fit_as_fresh fd run s2 X y, fitObs_map_func]
  have h3 : fitObs (fit_gen fd run s1 g) = fitObs (fit_gen fd run (initState s1.cfg) g) := by
    rw [fit_gen_as_fresh fd run s1 g, fitObs_map_func]
  have h4 : fitObs (fit_gen fd run s2 g) = fitObs (fit_gen fd run (initState s2.cfg) g) := by
    rw [fit_gen_as_fresh fd run s2 g, fitObs_map_func]
  refine ⟨?_, h1, ?_, h3⟩
  · rw [h1, h2, hcfg]
  · rw [h3, h4, hcfg]

/-- Closed instance of `fit_independent_of_prior_state`: fitting a freshly
constructed object and fitting one carrying stale working state (a stale
hall of fame, fitness class and compiled function) observably coincide. -/
theorem fit_independent_of_prior_state_witness :
    fitObs (fit (fun _ _ => .ok 0) (fun _ p => ([], [], p.hof)) (initState defaultConfig)
        ⟨[("x", [1])]⟩ [1]) =
      fitObs (fit (fun _ _ => .ok 0) (fun _ p => ([], [], p.hof))
        { initState defaultConfig with
            hof := some { maxsize := 3, items := [GPTree.var 5] },
            fitnessC := some [],
            func := some (fun _ => .ok 2) } ⟨[("x", [1])]⟩ [1]) :=
  (fit_independent_of_prior_state (fun _ _ => .ok 0) (fun _ p => ([], [], p.hof))
    (initState defaultConfig)
    { initState defaultConfig with
        hof := some { maxsize := 3, items := [GPTree.var 5] },
        fitnessC := some [],
        func := some (fun _ => .ok 2) }
    ⟨[("x", [1])]⟩ [1] (fun _ => (⟨[("x", [1])]⟩, [1])) rfl).1
